import Mathlib

/-!
Verification of the shruti audio-generation scripts against their design
specification.  The two Python sources, `scripts/generate_reference_plucks.py`
and `scripts/generate_tanpura_files.py`, are shallowly embedded below: machine
floating-point values are modelled as exact rationals (with IEEE special
values and, where an integer-valued outcome depends on it, explicit double
rounding), numpy arrays as lists, and Python exceptions as `Except` errors.
-/

/-- Audio sample rate used by both scripts (`SAMPLE_RATE = 44100`). -/
def SAMPLE_RATE : ℕ := 44100

/-- Python `int()` applied to a real value: truncation toward zero. -/
def pytrunc (q : ℚ) : ℤ := if q < 0 then -⌊-q⌋ else ⌊q⌋

/-- Python `int()` of a quantity used as an array size, clamped to `ℕ`
(the sources only reach this after the sign has been checked). -/
def pytruncNat (q : ℚ) : ℕ := (pytrunc q).toNat

/-- `np.linspace a b n`: `n` evenly spaced points from `a` to `b` inclusive. -/
def linspace (a b : ℚ) (n : ℕ) : List ℚ :=
  (List.range n).map (fun (i : ℕ) => a + (b - a) * (i : ℚ) / ((n : ℚ) - 1))

/-- Exceptions that `karplus_strong_pluck` can raise.  Each constructor is the
Python exception produced at the corresponding spot of the source:
`zeroDivisionError` by `SAMPLE_RATE / frequency` when `frequency == 0`,
`valueErrorNegDim` by `np.random.uniform` / `np.zeros` on a negative size,
`indexError` by `delay_line[0]` / `delay_line[1]` inside the feedback loop,
and `valueErrorShape` by the broadcast of a fade window onto a slice of a
different length. -/
inductive PyErr where
  | zeroDivisionError
  | valueErrorNegDim
  | indexError
  | valueErrorShape
deriving DecidableEq

/-- Delay line length: `delay_length = int(SAMPLE_RATE / frequency)`
(`generate_reference_plucks.py`, line 67). -/
def delay_length (frequency : ℚ) : ℤ := pytrunc ((SAMPLE_RATE : ℚ) / frequency)

/-- The initial delay line `np.random.uniform(-1.0, 1.0, delay_length)`
(line 70).  The unseeded global random source is modelled by the explicit
stream `noise`; nothing below assumes anything about its values. -/
def initialDelayLine (noise : ℕ → ℚ) (frequency : ℚ) : List ℚ :=
  (List.range (delay_length frequency).toNat).map noise

/-- One iteration of the Karplus-Strong feedback loop (lines 76-90): emit
`delay_line[0]`, average the two front samples, blend by `brightness`,
multiply by `decay`, rotate the line left and write the new sample at the
end.  Reading `delay_line[1]` (or `delay_line[0]` on an empty line) raises
`IndexError` when the line is shorter than 2. -/
def ksStep (decay brightness : ℚ) (dl : List ℚ) : Except PyErr (ℚ × List ℚ) :=
  match dl with
  | d0 :: d1 :: rest =>
      let filtered := (d0 + d1) / 2
      let newSample := (brightness * d0 + (1 - brightness) * filtered) * decay
      .ok (d0, (d1 :: rest) ++ [newSample])
  | _ => .error .indexError

/-- The feedback loop run for `n` output samples, threading the delay line. -/
def ksLoop (decay brightness : ℚ) : List ℚ → ℕ → Except PyErr (List ℚ)
  | _, 0 => .ok []
  | dl, n + 1 => do
      let s ← ksStep decay brightness dl
      let rest ← ksLoop decay brightness s.2 n
      .ok (s.1 :: rest)

/-- `fade_in_samples = int(SAMPLE_RATE * 0.01)` (line 93); the product is
exactly representable enough that exact arithmetic and doubles agree: 441. -/
def FADE_IN_SAMPLES : ℕ := pytruncNat ((SAMPLE_RATE : ℚ) * (1 / 100))

/-- `fade_out_samples = int(SAMPLE_RATE * 0.1)` (line 94): 4410. -/
def FADE_OUT_SAMPLES : ℕ := pytruncNat ((SAMPLE_RATE : ℚ) * (1 / 10))

/-- `output[:fade_in_samples] *= np.linspace(0.0, 1.0, fade_in_samples)`
(line 97).  When the slice is shorter than the window, the in-place
broadcast raises `ValueError`. -/
def applyFadeIn (out : List ℚ) : Except PyErr (List ℚ) :=
  if out.length < FADE_IN_SAMPLES then .error .valueErrorShape
  else .ok (List.zipWith (fun x y => x * y) (out.take FADE_IN_SAMPLES)
      (linspace 0 1 FADE_IN_SAMPLES) ++ out.drop FADE_IN_SAMPLES)

/-- `output[-fade_out_samples:] *= np.linspace(1.0, 0.0, fade_out_samples)`
(line 100); same broadcast rule as the fade-in. -/
def applyFadeOut (out : List ℚ) : Except PyErr (List ℚ) :=
  if out.length < FADE_OUT_SAMPLES then .error .valueErrorShape
  else .ok (out.take (out.length - FADE_OUT_SAMPLES) ++
      List.zipWith (fun x y => x * y) (out.drop (out.length - FADE_OUT_SAMPLES))
        (linspace 1 0 FADE_OUT_SAMPLES))

/-- Peak absolute sample, `np.max(np.abs(output))` (line 103), for the
rational-valued pluck signal.  The fold starts from `0`; the source only
reaches this point with a nonempty buffer, where the two agree because
absolute values are nonnegative. -/
def peakAbs (xs : List ℚ) : ℚ := (xs.map (fun x => |x|)).foldr max 0

/-- Final normalization (lines 102-105): scale so the peak becomes `0.8`,
skipped when the peak is `0`. -/
def normalizePluck (xs : List ℚ) : List ℚ :=
  let maxAmp := peakAbs xs
  if 0 < maxAmp then xs.map (fun x => x / maxAmp * (8 / 10)) else xs

/-- `karplus_strong_pluck(frequency, duration, decay, brightness)`
(`generate_reference_plucks.py`, lines 54-107).  `noise` stands for the
unseeded `np.random.uniform` stream.  The checks mirror, in source order,
the exceptions Python raises: division by a zero frequency (line 67), a
negative size passed to `np.random.uniform` (line 70) or `np.zeros`
(line 73), then the loop and the fades. -/
def karplus_strong_pluck (noise : ℕ → ℚ) (frequency duration decay brightness : ℚ) :
    Except PyErr (List ℚ) :=
  let numSamplesI := pytrunc ((SAMPLE_RATE : ℚ) * duration)
  if frequency = 0 then .error .zeroDivisionError
  else if delay_length frequency < 0 then .error .valueErrorNegDim
  else if numSamplesI < 0 then .error .valueErrorNegDim
  else do
    let raw ← ksLoop decay brightness (initialDelayLine noise frequency) numSamplesI.toNat
    let faded1 ← applyFadeIn raw
    let faded2 ← applyFadeOut faded1
    .ok (normalizePluck faded2)

/-!
Embedding of `scripts/generate_tanpura_files.py`.

Integer-valued buffer sizes in that script are computed from the IEEE-754
double `0.6` (`BEAT_INTERVAL`), whose product `0.6 * 6` is a little below
3.6; truncating with `int()` therefore yields 158759, not 158760.  To settle
that, the three module constants are modelled with explicit round-to-nearest,
ties-to-even double rounding (53-bit significands, represented as a pair of
significand and binary exponent over ℕ/ℤ; the values involved are far from
overflow and underflow).  The signal path itself is modelled with exact
rationals extended with the IEEE special values `inf`/`-inf`/`nan` (`PyF`),
because numpy division by zero produces those values silently.
-/

/-- True when `2 ^ e ≤ num / den`, for positive naturals `num, den`. -/
def pow2le (e : ℤ) (num den : ℕ) : Bool :=
  if 0 ≤ e then decide (den * 2 ^ e.toNat ≤ num) else decide (den ≤ num * 2 ^ (-e).toNat)

/-- Fuelled base-two logarithm on naturals (structural recursion, so the
kernel can evaluate it; `Nat.log2` uses well-founded recursion and cannot
be reduced by `decide`). -/
def natLog2F : ℕ → ℕ → ℕ
  | 0, _ => 0
  | f + 1, n => if n ≤ 1 then 0 else natLog2F f (n / 2) + 1

/-- `⌊log₂ n⌋` for positive `n` (0 for `n ≤ 1`). -/
def natLog2 (n : ℕ) : ℕ := natLog2F n n

/-- Floor of the base-two logarithm of `num / den` (both positive).  The
candidate from the integer logarithms is off by at most one, so it is
corrected by direct comparison. -/
def floorLog2D (num den : ℕ) : ℤ :=
  let e0 : ℤ := (natLog2 num : ℤ) - (natLog2 den : ℤ)
  if pow2le (e0 + 1) num den then e0 + 1
  else if pow2le e0 num den then e0
  else e0 - 1

/-- Round `m + r / d` (with `0 ≤ r < d`) to the nearest natural, ties to
even. -/
def roundHalfEvenN (m r d : ℕ) : ℕ :=
  if 2 * r < d then m
  else if d < 2 * r then m + 1
  else if m % 2 = 0 then m else m + 1

/-- Round the positive rational `num / den` to the nearest IEEE-754 double
(round to nearest, ties to even, 53-bit significand), returned as
significand and binary exponent. -/
def dRound (num den : ℕ) : ℕ × ℤ :=
  let s := floorLog2D num den - 52
  if 0 ≤ s then
    let d2 := den * 2 ^ s.toNat
    (roundHalfEvenN (num / d2) (num % d2) d2, s)
  else
    let n2 := num * 2 ^ (-s).toNat
    (roundHalfEvenN (n2 / den) (n2 % den) den, s)

/-- Multiply a double by a natural number with correct rounding — the float
product `SAMPLE_RATE * x` or `x * 6` of the source. -/
def dMulNat (x : ℕ × ℤ) (k : ℕ) : ℕ × ℤ :=
  if 0 ≤ x.2 then dRound (x.1 * k * 2 ^ x.2.toNat) 1
  else dRound (x.1 * k) (2 ^ (-x.2).toNat)

/-- Python `int()` of a nonnegative double given as significand/exponent. -/
def dTrunc (x : ℕ × ℤ) : ℕ :=
  if 0 ≤ x.2 then x.1 * 2 ^ x.2.toNat else x.1 / 2 ^ (-x.2).toNat

/-- `BEAT_INTERVAL = 0.6` (`generate_tanpura_files.py`, line 22) as the IEEE
double nearest 6/10. -/
def BEAT_INTERVAL_d : ℕ × ℤ := dRound 6 10

/-- `CYCLE_DURATION = BEAT_INTERVAL * CYCLE_BEATS` (line 24) with
`CYCLE_BEATS = 6`; in doubles this is 3.5999999999999996, slightly below
3.6. -/
def CYCLE_DURATION_d : ℕ × ℤ := dMulNat BEAT_INTERVAL_d 6

/-- `cycle_size = int(SAMPLE_RATE * CYCLE_DURATION)` (line 187): 158759. -/
def cycle_size : ℕ := dTrunc (dMulNat CYCLE_DURATION_d SAMPLE_RATE)

/-- `beat_interval_samples = int(SAMPLE_RATE * BEAT_INTERVAL)` (line 186):
the double product is exactly 26460.0. -/
def beat_interval_samples : ℕ := dTrunc (dMulNat BEAT_INTERVAL_d SAMPLE_RATE)

/-- `stereo_timing_offset = int(SAMPLE_RATE * 0.020)` (line 204): the double
product rounds to exactly 882.0. -/
def stereo_timing_offset : ℕ := dTrunc (dMulNat (dRound 2 100) SAMPLE_RATE)

/-- A numpy double sample: an exact rational, one of the two infinities, or
NaN.  Finite arithmetic is carried out exactly (no rounding); the special
values follow the IEEE rules numpy applies, which matter here because
division by a zero `amplitude_sum` must produce `inf`/`nan` silently rather
than raise.  Signed zero is not tracked (a negative zero can only reach a
magnitude bound through its absolute value, which agrees). -/
inductive PyF where
  | fin (q : ℚ)
  | pinf
  | ninf
  | nan
deriving DecidableEq

/-- IEEE addition on `PyF`. -/
def PyF.add : PyF → PyF → PyF
  | fin q, fin r => fin (q + r)
  | fin _, pinf => pinf
  | fin _, ninf => ninf
  | pinf, fin _ => pinf
  | ninf, fin _ => ninf
  | pinf, pinf => pinf
  | ninf, ninf => ninf
  | pinf, ninf => nan
  | ninf, pinf => nan
  | _, _ => nan

/-- IEEE multiplication on `PyF`: `0 × ±inf = nan`, signs propagate. -/
def PyF.mul : PyF → PyF → PyF
  | fin q, fin r => fin (q * r)
  | fin q, pinf => if q = 0 then nan else if 0 < q then pinf else ninf
  | fin q, ninf => if q = 0 then nan else if 0 < q then ninf else pinf
  | pinf, fin r => if r = 0 then nan else if 0 < r then pinf else ninf
  | ninf, fin r => if r = 0 then nan else if 0 < r then ninf else pinf
  | pinf, pinf => pinf
  | ninf, ninf => pinf
  | pinf, ninf => ninf
  | ninf, pinf => ninf
  | _, _ => nan

/-- IEEE division on `PyF`: a finite value divided by zero gives a signed
infinity (`0/0 = nan`), `x / ±inf = 0`, `inf / inf = nan`. -/
def PyF.div : PyF → PyF → PyF
  | fin q, fin r =>
      if r = 0 then (if q = 0 then nan else if 0 < q then pinf else ninf)
      else fin (q / r)
  | fin _, pinf => fin 0
  | fin _, ninf => fin 0
  | pinf, fin r => if r < 0 then ninf else pinf
  | ninf, fin r => if r < 0 then pinf else ninf
  | _, _ => nan

/-- IEEE `<` on `PyF`: every comparison with NaN is false. -/
def PyF.ltb : PyF → PyF → Bool
  | fin q, fin r => decide (q < r)
  | fin _, pinf => true
  | ninf, fin _ => true
  | ninf, pinf => true
  | _, _ => false

/-- `np.abs` on `PyF`. -/
def PyF.absF : PyF → PyF
  | fin q => fin |q|
  | nan => nan
  | _ => pinf

/-- `np.clip x lo hi` = `min(hi, max(lo, x))` elementwise; NaN passes
through. -/
def PyF.clip (x lo hi : PyF) : PyF :=
  if x = nan then nan
  else if PyF.ltb x lo then lo
  else if PyF.ltb hi x then hi
  else x

/-- Binary step of `np.max`: NaN is absorbing, otherwise the larger value. -/
def PyF.maxNan (a b : PyF) : PyF :=
  if a = nan ∨ b = nan then nan
  else if PyF.ltb a b then b else a

/-- The `np.pi` double constant (the IEEE double nearest π). -/
def PI_f : ℚ := 884279719003555 / 281474976710656

/-- `HARMONICS` (`generate_tanpura_files.py`, lines 67-88): pairs of harmonic
number and amplitude. -/
def HARMONICS : List (ℚ × ℚ) :=
  [(1, 26/100), (2, 26/100), (3, 4/100), (4, 81/100), (5, 49/100),
   (6, 49/100), (7, 1), (8, 24/100), (9, 54/100), (10, 34/100),
   (11, 45/100), (12, 8/100), (13, 7/100), (14, 4/100), (15, 3/100),
   (16, 5/100), (17, 33/100), (18, 5/100), (19, 28/100), (20, 9/100)]

/-- `NOTE_RATIOS` (lines 27-40): just-intonation ratios by note name. -/
def NOTE_RATIOS : List (String × ℚ) :=
  [("S", 1), ("r", 16/15), ("R", 9/8), ("g", 6/5), ("G", 5/4), ("m", 4/3),
   ("M", 45/32), ("P", 3/2), ("d", 8/5), ("D", 5/3), ("n", 16/9), ("N", 15/8)]

/-- `SUSTAIN_DURATION = 10.0` (line 21). -/
def SUSTAIN_DURATION : ℚ := 10

/-- `amplitude_sum = sum(amp for _, amp in HARMONICS)` (line 142). -/
def ampSum (harmonics : List (ℚ × ℚ)) : ℚ := harmonics.foldl (fun a p => a + p.2) 0

/-- One harmonic's contribution at time `tq` (lines 112-139): inharmonicity
factor, frequency-dependent damping, jawari amplitude modulation and phase
offset, summed as `amp * decay * modulation * sin(phase + shift)`.  The
transcendental library functions `np.sin`, `np.exp`, `np.sqrt` enter as the
oracle parameters `sinO`, `expO`, `sqrtO`; all surrounding arithmetic is
exact. -/
def gspTerm (sinO expO sqrtO : ℚ → ℚ) (frequency tq : ℚ) (p : ℚ × ℚ) : ℚ :=
  let inharmonic_factor := sqrtO (1 + (2/10000) * p.1 * p.1)
  let harmonic_freq := frequency * p.1 * inharmonic_factor
  let phase := 2 * PI_f * harmonic_freq * tq
  let harmonic_decay := expO (-tq * (15/100 + p.1 * p.1 * (4/1000)))
  let modulation_freq := 3/2 + p.1 * (15/100)
  let modulation_phase := p.1 * (4/10)
  let modulation_depth := (32/100) * expO (-tq * (8/10))
  let harmonic_modulation :=
    1 + modulation_depth * sinO (2 * PI_f * modulation_freq * tq + modulation_phase)
  let harmonic_phase_shift := sinO (p.1 * (7/10)) * (5/100)
  p.2 * harmonic_decay * harmonic_modulation * sinO (phase + harmonic_phase_shift)

/-- The raw additive sum over the harmonic table (the `samples` array before
scaling, lines 98 and 134-139). -/
def rawSum (sinO expO sqrtO : ℚ → ℚ) (harmonics : List (ℚ × ℚ))
    (frequency tq : ℚ) : ℚ :=
  harmonics.foldl (fun acc p => acc + gspTerm sinO expO sqrtO frequency tq p) 0

/-- The envelope (lines 104-108): sigmoid attack before `attack_duration`,
exponential decay after.  The sigmoid denominator is a `PyF` division
because `1 + exp(...)` is not syntactically nonzero for an arbitrary
oracle. -/
def envelopeF (expO : ℚ → ℚ) (attack_duration tq : ℚ) : PyF :=
  if tq < attack_duration then
    PyF.div (PyF.fin 1) (PyF.fin (1 + expO (-(12 : ℚ) * (tq / attack_duration - 1/2))))
  else PyF.fin (expO (-tq * (15/100)))

/-- `generate_string_pluck(frequency, duration, amplitude_variation,
attack_duration, volume)` (lines 91-147), over a harmonic table parameter
(the source reads the module constant `HARMONICS`; `generate_tanpura_cycle`
below passes exactly that).  Per sample: the raw harmonic sum is scaled by
`envelope * amplitude_variation * volume / amplitude_sum`, clipped to
[-1, 1], and multiplied by 0.8.  For an empty table `amplitude_sum` is zero
and the division silently produces IEEE special values. -/
def generate_string_pluck (sinO expO sqrtO : ℚ → ℚ) (harmonics : List (ℚ × ℚ))
    (frequency duration amplitude_variation attack_duration volume : ℚ) : List PyF :=
  (List.range (pytruncNat ((SAMPLE_RATE : ℚ) * duration))).map (fun (i : ℕ) =>
    let tq : ℚ := (i : ℚ) / (SAMPLE_RATE : ℚ)
    let scaled := PyF.mul (PyF.fin (rawSum sinO expO sqrtO harmonics frequency tq))
      (PyF.div
        (PyF.mul (PyF.mul (envelopeF expO attack_duration tq)
            (PyF.fin amplitude_variation))
          (PyF.fin volume))
        (PyF.fin (ampSum harmonics)))
    PyF.mul (PyF.clip scaled (PyF.fin (-1)) (PyF.fin 1)) (PyF.fin (8/10)))

/-- Accumulate one string into the cycle buffer with wraparound
(lines 191-196): `mono_buffer[(offset + i) % cycle_size] += samples[i]`. -/
def addString (size : ℕ) (buf : List PyF) (offset : ℕ) (s : List PyF) : List PyF :=
  (List.range s.length).foldl (fun b i =>
    b.set ((offset + i) % size)
      (PyF.add (b.getD ((offset + i) % size) (PyF.fin 0)) (s.getD i (PyF.fin 0)))) buf

/-- The cycle mixer (lines 182-196): a zero buffer of `cycle_size` samples
into which each string is accumulated at its beat offset. -/
def mixCycleMono (strings : List (ℕ × List PyF)) : List PyF :=
  strings.foldl (fun b p => addString cycle_size b (p.1 * beat_interval_samples) p.2)
    (List.replicate cycle_size (PyF.fin 0))

/-- `np.max(np.abs(mono_buffer))` (line 199) on `PyF` samples.  The fold
starts from 0, which agrees with numpy on the nonempty buffers the source
uses because absolute values are nonnegative. -/
def peakAbsF (xs : List PyF) : PyF := (xs.map PyF.absF).foldr PyF.maxNan (PyF.fin 0)

/-- Conditional peak normalization of the mixed cycle (lines 198-201): scale
by `0.85 / max_amp` only when the peak exceeds 0.85. -/
def normalizeCycle (mono : List PyF) : List PyF :=
  if PyF.ltb (PyF.fin (85/100)) (peakAbsF mono) then
    mono.map (fun x => PyF.mul x (PyF.div (PyF.fin (85/100)) (peakAbsF mono)))
  else mono

/-- The stereo renderer (lines 203-213): left channel `mono[i] * panLeft`,
right channel `mono[(i + delay) % N] * panRight`, as a list of
left/right pairs of length `N`. -/
def renderStereo (mono : List PyF) (delay : ℕ) (pl pr : ℚ) : List (PyF × PyF) :=
  (List.range mono.length).map (fun (i : ℕ) =>
    (PyF.mul (mono.getD i (PyF.fin 0)) (PyF.fin pl),
     PyF.mul (mono.getD ((i + delay) % mono.length) (PyF.fin 0)) (PyF.fin pr)))

/-- `generate_tanpura_cycle(sa_frequency, string1_note)` (lines 150-215).
The dict access `NOTE_RATIOS[string1_note]` is modelled by an association
list lookup defaulting to 0 — the callers only pass the keys "P", "m", "N",
which are present (a missing key would raise `KeyError` in Python). -/
def generate_tanpura_cycle (sinO expO sqrtO : ℚ → ℚ) (sa_frequency : ℚ)
    (string1_note : String) : List (PyF × PyF) :=
  let r1 := (NOTE_RATIOS.lookup string1_note).getD 0
  let string1_samples := generate_string_pluck sinO expO sqrtO HARMONICS
    (sa_frequency * r1 / 2) SUSTAIN_DURATION (98/100) (4/10) (1/2)
  let string2_samples := generate_string_pluck sinO expO sqrtO HARMONICS
    sa_frequency SUSTAIN_DURATION 1 (8/10) (1/2)
  let string3_samples := generate_string_pluck sinO expO sqrtO HARMONICS
    sa_frequency SUSTAIN_DURATION 1 (8/10) (1/2)
  let string4_samples := generate_string_pluck sinO expO sqrtO HARMONICS
    (sa_frequency / 2) SUSTAIN_DURATION (96/100) (6/10) (1/2)
  let mono_buffer := mixCycleMono
    [(0, string1_samples), (2, string2_samples), (3, string3_samples),
     (4, string4_samples)]
  renderStereo (normalizeCycle mono_buffer) stereo_timing_offset (75/100) (75/100)

lemma pytrunc_of_nonneg {q : ℚ} (h : 0 ≤ q) : pytrunc q = ⌊q⌋ := by
  rw [pytrunc, if_neg (not_lt.mpr h)]

lemma pytrunc_nonpos {q : ℚ} (h : q ≤ 0) : pytrunc q ≤ 0 := by
  rcases lt_or_eq_of_le h with h1 | h1
  · rw [pytrunc, if_pos h1]
    simp only [neg_nonpos]
    exact Int.le_floor.mpr (by simpa using h1.le)
  · subst h1
    simp [pytrunc]

lemma delay_length_110 : delay_length 110 = 400 := by
  rw [delay_length, pytrunc_of_nonneg (by norm_num [SAMPLE_RATE])]
  apply Int.floor_eq_iff.mpr
  norm_num [SAMPLE_RATE]

lemma delay_length_30000 : delay_length 30000 = 1 := by
  rw [delay_length, pytrunc_of_nonneg (by norm_num [SAMPLE_RATE])]
  apply Int.floor_eq_iff.mpr
  norm_num [SAMPLE_RATE]

lemma FADE_IN_SAMPLES_eq : FADE_IN_SAMPLES = 441 := by
  rw [FADE_IN_SAMPLES, pytruncNat, pytrunc_of_nonneg (by norm_num [SAMPLE_RATE])]
  rw [show ((SAMPLE_RATE : ℚ) * (1 / 100)) = 441 by norm_num [SAMPLE_RATE]]
  rw [show ⌊(441 : ℚ)⌋ = (441 : ℤ) by norm_num]
  rfl

lemma FADE_OUT_SAMPLES_eq : FADE_OUT_SAMPLES = 4410 := by
  rw [FADE_OUT_SAMPLES, pytruncNat, pytrunc_of_nonneg (by norm_num [SAMPLE_RATE])]
  rw [show ((SAMPLE_RATE : ℚ) * (1 / 10)) = 4410 by norm_num [SAMPLE_RATE]]
  rw [show ⌊(4410 : ℚ)⌋ = (4410 : ℤ) by norm_num]
  rfl

lemma linspace_length (a b : ℚ) (n : ℕ) : (linspace a b n).length = n := by
  rw [linspace, List.length_map, List.length_range]

lemma initialDelayLine_length (noise : ℕ → ℚ) (f : ℚ) :
    (initialDelayLine noise f).length = (delay_length f).toNat := by
  simp [initialDelayLine]

lemma ksLoop_err_of_short {decay brightness : ℚ} {dl : List ℚ} {n : ℕ}
    (h : dl.length < 2) (hn : 0 < n) :
    ksLoop decay brightness dl n = .error .indexError := by
  cases n with
  | zero => omega
  | succ m =>
      match dl, h with
      | [], _ => rfl
      | [x], _ => rfl

lemma ksLoop_ok_of_two (decay brightness : ℚ) (dl : List ℚ) (n : ℕ)
    (h : 2 ≤ dl.length) :
    ∃ ys, ksLoop decay brightness dl n = .ok ys ∧ ys.length = n := by
  induction n generalizing dl with
  | zero => exact ⟨[], rfl, rfl⟩
  | succ m ih =>
      match dl, h with
      | d0 :: d1 :: rest, _ =>
          have h2 : 2 ≤ (d1 :: rest ++
              [(brightness * d0 + (1 - brightness) * ((d0 + d1) / 2)) * decay]).length := by
            simp
          obtain ⟨ys, hys, hlen⟩ := ih _ h2
          refine ⟨d0 :: ys, ?_, by simp [hlen]⟩
          simp only [ksLoop, ksStep, bind, Except.bind, hys]

lemma applyFadeIn_ok {out : List ℚ} (h : FADE_IN_SAMPLES ≤ out.length) :
    ∃ r, applyFadeIn out = .ok r ∧ r.length = out.length := by
  refine ⟨_, by rw [applyFadeIn, if_neg (not_lt.mpr h)], ?_⟩
  simp [List.length_zipWith, linspace_length]
  omega

lemma applyFadeOut_ok {out : List ℚ} (h : FADE_OUT_SAMPLES ≤ out.length) :
    ∃ r, applyFadeOut out = .ok r ∧ r.length = out.length := by
  refine ⟨_, by rw [applyFadeOut, if_neg (not_lt.mpr h)], ?_⟩
  simp [List.length_zipWith, linspace_length]
  omega

lemma normalizePluck_length (xs : List ℚ) : (normalizePluck xs).length = xs.length := by
  rw [normalizePluck]
  split <;> simp

lemma karplus_ok (noise : ℕ → ℚ) (f d decay brightness : ℚ)
    (h2 : 2 ≤ (delay_length f).toNat)
    (hn : FADE_OUT_SAMPLES ≤ pytruncNat ((SAMPLE_RATE : ℚ) * d)) :
    ∃ out, karplus_strong_pluck noise f d decay brightness = .ok out ∧
      out.length = pytruncNat ((SAMPLE_RATE : ℚ) * d) := by
  have hf : f ≠ 0 := by
    intro h0
    rw [h0] at h2
    simp [delay_length, pytrunc] at h2
  have hd0 : ¬ delay_length f < 0 := by omega
  have hns0 : ¬ pytrunc ((SAMPLE_RATE : ℚ) * d) < 0 := by
    intro hlt
    have h0 : pytruncNat ((SAMPLE_RATE : ℚ) * d) = 0 := by
      simp only [pytruncNat]
      omega
    rw [h0, FADE_OUT_SAMPLES_eq] at hn
    omega
  have hdl : 2 ≤ (initialDelayLine noise f).length := by
    rw [initialDelayLine_length]
    exact h2
  obtain ⟨ys, hys, hyslen⟩ :=
    ksLoop_ok_of_two decay brightness (initialDelayLine noise f)
      (pytrunc ((SAMPLE_RATE : ℚ) * d)).toNat hdl
  have hfadein : FADE_IN_SAMPLES ≤ ys.length := by
    rw [hyslen]
    have hle : FADE_IN_SAMPLES ≤ FADE_OUT_SAMPLES := by
      rw [FADE_IN_SAMPLES_eq, FADE_OUT_SAMPLES_eq]
      omega
    exact le_trans hle hn
  obtain ⟨r1, hr1, hr1len⟩ := applyFadeIn_ok hfadein
  have hfadeout : FADE_OUT_SAMPLES ≤ r1.length := by rw [hr1len, hyslen]; exact hn
  obtain ⟨r2, hr2, hr2len⟩ := applyFadeOut_ok hfadeout
  refine ⟨normalizePluck r2, ?_, ?_⟩
  · rw [karplus_strong_pluck]
    rw [if_neg hf, if_neg hd0, if_neg hns0]
    simp only [bind, Except.bind, hys, hr1, hr2]
  · rw [normalizePluck_length, hr2len, hr1len, hyslen, pytruncNat]

lemma pytrunc_nonneg {q : ℚ} (h : 0 ≤ q) : 0 ≤ pytrunc q := by
  rw [pytrunc_of_nonneg h]
  exact Int.floor_nonneg.mpr h

lemma karplus_unfold (noise : ℕ → ℚ) (f d decay brightness : ℚ)
    (hf : f ≠ 0) (hd : ¬ delay_length f < 0)
    (hn : ¬ pytrunc ((SAMPLE_RATE : ℚ) * d) < 0) :
    karplus_strong_pluck noise f d decay brightness = (do
      let raw ← ksLoop decay brightness (initialDelayLine noise f)
        (pytrunc ((SAMPLE_RATE : ℚ) * d)).toNat
      let faded1 ← applyFadeIn raw
      let faded2 ← applyFadeOut faded1
      .ok (normalizePluck faded2)) := by
  simp only [karplus_strong_pluck, if_neg hf, if_neg hd, if_neg hn]

lemma ksLoop_len {decay brightness : ℚ} {dl ys : List ℚ} {n : ℕ}
    (h : ksLoop decay brightness dl n = .ok ys) : ys.length = n := by
  induction n generalizing dl ys with
  | zero =>
      simp only [ksLoop] at h
      cases h
      rfl
  | succ m ih =>
      simp only [ksLoop, bind, Except.bind] at h
      cases hs : ksStep decay brightness dl with
      | error e => rw [hs] at h; cases h
      | ok s =>
          rw [hs] at h
          dsimp only at h
          cases hr : ksLoop decay brightness s.2 m with
          | error e => rw [hr] at h; cases h
          | ok rest =>
              rw [hr] at h
              dsimp only at h
              cases h
              simp [ih hr]

lemma applyFadeIn_len {out r : List ℚ} (h : applyFadeIn out = .ok r) :
    r.length = out.length := by
  rw [applyFadeIn] at h
  split at h
  · cases h
  · cases h
    rename_i hge
    simp only [List.length_append, List.length_zipWith, List.length_take,
      List.length_drop, linspace_length]
    omega

lemma applyFadeOut_len {out r : List ℚ} (h : applyFadeOut out = .ok r) :
    r.length = out.length := by
  rw [applyFadeOut] at h
  split at h
  · cases h
  · cases h
    rename_i hge
    simp only [List.length_append, List.length_zipWith, List.length_take,
      List.length_drop, linspace_length]
    omega

lemma karplus_indexError (noise : ℕ → ℚ) (f d decay brightness : ℚ)
    (hf : f ≠ 0) (hd : ¬ delay_length f < 0)
    (hn : ¬ pytrunc ((SAMPLE_RATE : ℚ) * d) < 0)
    (hshort : (delay_length f).toNat < 2)
    (hpos : 0 < (pytrunc ((SAMPLE_RATE : ℚ) * d)).toNat) :
    karplus_strong_pluck noise f d decay brightness = .error .indexError := by
  rw [karplus_unfold noise f d decay brightness hf hd hn]
  rw [ksLoop_err_of_short (by rw [initialDelayLine_length]; exact hshort) hpos]
  rfl

lemma peakAbs_cons (y : ℚ) (t : List ℚ) : peakAbs (y :: t) = max |y| (peakAbs t) := rfl

lemma peakAbs_nonneg (xs : List ℚ) : 0 ≤ peakAbs xs := by
  induction xs with
  | nil => exact le_refl 0
  | cons y t ih => rw [peakAbs_cons]; exact le_trans ih (le_max_right _ _)

lemma le_peakAbs {x : ℚ} {xs : List ℚ} (h : x ∈ xs) : |x| ≤ peakAbs xs := by
  induction xs with
  | nil => cases h
  | cons y t ih =>
      rw [peakAbs_cons]
      rcases List.mem_cons.mp h with h1 | h1
      · rw [h1]; exact le_max_left _ _
      · exact le_trans (ih h1) (le_max_right _ _)

lemma peakAbs_zero_all_zero {xs : List ℚ} (h : peakAbs xs = 0) : ∀ x ∈ xs, x = 0 := by
  intro x hx
  have h1 := le_peakAbs hx
  rw [h] at h1
  exact abs_eq_zero.mp (le_antisymm h1 (abs_nonneg x))

lemma normalizePluck_of_peak_zero {xs : List ℚ} (h : peakAbs xs = 0) :
    normalizePluck xs = xs := by
  rw [normalizePluck, h]
  norm_num

lemma normalizePluck_bound (xs : List ℚ) : ∀ x ∈ normalizePluck xs, |x| ≤ 8 / 10 := by
  intro x hx
  rw [normalizePluck] at hx
  split at hx
  · rename_i hpos
    obtain ⟨y, hy, hyx⟩ := List.mem_map.mp hx
    have hle : |y| ≤ peakAbs xs := le_peakAbs hy
    rw [← hyx, abs_mul, abs_div, abs_of_pos hpos]
    calc |y| / peakAbs xs * |(8 : ℚ) / 10| ≤ 1 * |(8 : ℚ) / 10| := by
          apply mul_le_mul_of_nonneg_right _ (abs_nonneg _)
          exact (div_le_one hpos).mpr hle
      _ = 8 / 10 := by norm_num
  · rename_i hnpos
    have h0 : peakAbs xs = 0 := le_antisymm (not_lt.mp hnpos) (peakAbs_nonneg xs)
    rw [peakAbs_zero_all_zero h0 x hx]
    norm_num

lemma karplus_ok_inv {noise : ℕ → ℚ} {f d decay brightness : ℚ} {out : List ℚ}
    (h : karplus_strong_pluck noise f d decay brightness = .ok out) :
    ∃ raw faded1 faded2,
      ksLoop decay brightness (initialDelayLine noise f)
        (pytrunc ((SAMPLE_RATE : ℚ) * d)).toNat = .ok raw ∧
      applyFadeIn raw = .ok faded1 ∧ applyFadeOut faded1 = .ok faded2 ∧
      out = normalizePluck faded2 := by
  simp only [karplus_strong_pluck] at h
  split at h
  · cases h
  · split at h
    · cases h
    · split at h
      · cases h
      · simp only [bind, Except.bind] at h
        cases hks : ksLoop decay brightness (initialDelayLine noise f)
            (pytrunc ((SAMPLE_RATE : ℚ) * d)).toNat with
        | error e => rw [hks] at h; cases h
        | ok raw =>
            rw [hks] at h
            dsimp only at h
            cases hf1 : applyFadeIn raw with
            | error e => rw [hf1] at h; cases h
            | ok faded1 =>
                rw [hf1] at h
                dsimp only at h
                cases hf2 : applyFadeOut faded1 with
                | error e => rw [hf2] at h; cases h
                | ok faded2 =>
                    rw [hf2] at h
                    dsimp only at h
                    cases h
                    exact ⟨raw, faded1, faded2, rfl, hf1, hf2, rfl⟩

/-- C1, corrected.  The source computes the delay-line length with `int()`
(truncation), not `round`: for `frequency = 110.0` at sample rate 44100 the
delay line has length `int(44100/110.0) = 400`, while `round(44100/110.0)`
is 401 as the claim states. -/
theorem c1_counterexample :
    (initialDelayLine (fun _ => 0) 110).length = 400 ∧
    (400 : ℤ) ≠ round ((SAMPLE_RATE : ℚ) / 110) := by
  constructor
  · rw [initialDelayLine_length, delay_length_110]
    rfl
  · rw [show ((SAMPLE_RATE : ℚ) / 110) = 44100 / 110 by norm_num [SAMPLE_RATE], round_eq,
      show ⌊(44100 : ℚ) / 110 + 1 / 2⌋ = 401 from Int.floor_eq_iff.mpr (by norm_num)]
    decide

/-- C1, amended: for every frequency > 0, `karplus_strong_pluck` initializes
its delay line with length `int(sampleRate / frequency)`, the floor of the
quotient; for frequency 110.0 at sample rate 44100 this is 400, not 401. -/
theorem c1_delay_length_trunc (f : ℚ) (h : 0 < f) :
    delay_length f = ⌊(SAMPLE_RATE : ℚ) / f⌋ ∧ delay_length 110 = 400 := by
  refine ⟨?_, delay_length_110⟩
  rw [delay_length]
  exact pytrunc_of_nonneg (div_nonneg (by positivity) h.le)

/-- Witness for C1 at the concrete frequency 110. -/
theorem c1_witness :
    delay_length 110 = ⌊(SAMPLE_RATE : ℚ) / 110⌋ ∧ delay_length 110 = 400 :=
  c1_delay_length_trunc 110 (by norm_num)

lemma pytruncNat_9999 : pytruncNat ((SAMPLE_RATE : ℚ) * (9999 / 10000)) = 44095 := by
  rw [pytruncNat, pytrunc_of_nonneg (by norm_num [SAMPLE_RATE]),
    show ((SAMPLE_RATE : ℚ) * (9999 / 10000)) = 4409559 / 100 by norm_num [SAMPLE_RATE],
    show ⌊(4409559 : ℚ) / 100⌋ = 44095 from Int.floor_eq_iff.mpr (by norm_num)]
  rfl

/-- C2, corrected.  At frequency 110 and duration 0.9999 the call succeeds and
returns `int(44100 × 0.9999) = 44095` samples, but `round(44100 × 0.9999)`
is 44096: the length is the truncation, not the rounding, of the product. -/
theorem c2_counterexample :
    ∃ out, karplus_strong_pluck (fun _ => 0) 110 (9999 / 10000) (996 / 1000) (2 / 5) =
        .ok out ∧
      out.length ≠ (round ((SAMPLE_RATE : ℚ) * (9999 / 10000))).toNat := by
  obtain ⟨out, hok, hlen⟩ :=
    karplus_ok (fun _ => 0) 110 (9999 / 10000) (996 / 1000) (2 / 5)
      (by rw [delay_length_110]; omega)
      (by rw [FADE_OUT_SAMPLES_eq, pytruncNat_9999]; omega)
  refine ⟨out, hok, ?_⟩
  rw [hlen, pytruncNat_9999,
    show ((SAMPLE_RATE : ℚ) * (9999 / 10000)) = 4409559 / 100 by norm_num [SAMPLE_RATE],
    round_eq,
    show ⌊(4409559 : ℚ) / 100 + 1 / 2⌋ = 44096 from Int.floor_eq_iff.mpr (by norm_num)]
  decide

/-- C2, amended: whenever `karplus_strong_pluck` returns a buffer, its length
is exactly `int(sampleRate × duration)` — the truncation toward zero of the
product, not its rounding. -/
theorem c2_output_length_trunc (noise : ℕ → ℚ) (f d decay brightness : ℚ)
    (out : List ℚ)
    (h : karplus_strong_pluck noise f d decay brightness = .ok out) :
    out.length = pytruncNat ((SAMPLE_RATE : ℚ) * d) := by
  obtain ⟨raw, faded1, faded2, hks, hf1, hf2, hout⟩ := karplus_ok_inv h
  rw [hout, normalizePluck_length, applyFadeOut_len hf2, applyFadeIn_len hf1,
    ksLoop_len hks, pytruncNat]

/-- Witness for C2: a successful call at frequency 110, duration 0.1. -/
theorem c2_witness :
    ∃ out, karplus_strong_pluck (fun _ => 0) 110 (1 / 10) (996 / 1000) (2 / 5) =
        .ok out ∧
      out.length = pytruncNat ((SAMPLE_RATE : ℚ) * (1 / 10)) := by
  obtain ⟨out, hok, _⟩ :=
    karplus_ok (fun _ => 0) 110 (1 / 10) (996 / 1000) (2 / 5)
      (by rw [delay_length_110]; omega)
      (le_refl _)
  exact ⟨out, hok, c2_output_length_trunc (fun _ => 0) 110 (1 / 10) (996 / 1000)
    (2 / 5) out hok⟩

lemma pytrunc_sr_one : pytrunc ((SAMPLE_RATE : ℚ) * 1) = 44100 := by
  rw [pytrunc_of_nonneg (by norm_num [SAMPLE_RATE]),
    show ((SAMPLE_RATE : ℚ) * 1) = 44100 by norm_num [SAMPLE_RATE],
    show ⌊(44100 : ℚ)⌋ = 44100 by norm_num]

lemma pytrunc_sr_twentieth : pytrunc ((SAMPLE_RATE : ℚ) * (1 / 20)) = 2205 := by
  rw [pytrunc_of_nonneg (by norm_num [SAMPLE_RATE]),
    show ((SAMPLE_RATE : ℚ) * (1 / 20)) = 2205 by norm_num [SAMPLE_RATE],
    show ⌊(2205 : ℚ)⌋ = 2205 by norm_num]

/-- C3, corrected.  At frequency 30000 (delay length `int(44100/30000) = 1 < 2`)
and duration 1, the failure is an `IndexError` raised inside the synthesis
loop at its first iteration — not a validation error raised before synthesis
begins as the claim states (no buffer is returned either way). -/
theorem c3_counterexample :
    karplus_strong_pluck (fun _ => 0) 30000 1 (996 / 1000) (2 / 5) =
        .error .indexError ∧
    delay_length 30000 < 2 ∧
    PyErr.indexError ≠ PyErr.zeroDivisionError ∧
    PyErr.indexError ≠ PyErr.valueErrorNegDim := by
  refine ⟨?_, by rw [delay_length_30000]; decide, by decide, by decide⟩
  apply karplus_indexError
  · norm_num
  · rw [delay_length_30000]; decide
  · rw [pytrunc_sr_one]; decide
  · rw [delay_length_30000]; decide
  · rw [pytrunc_sr_one]; decide

/-- C3, amended: if `frequency ≤ 0` or the computed delay-line length is less
than 2, `karplus_strong_pluck` raises an exception and returns no buffer; the
exception is a pre-synthesis error (`ZeroDivisionError` / `ValueError`) for
`frequency ≤ 0` with nonzero delay length, but an `IndexError` from inside
the synthesis loop when the delay line is shorter than 2. -/
theorem c3_invalid_inputs_raise (noise : ℕ → ℚ) (f d decay brightness : ℚ)
    (h : f ≤ 0 ∨ delay_length f < 2) :
    ∃ e, karplus_strong_pluck noise f d decay brightness = .error e := by
  by_cases hf0 : f = 0
  · exact ⟨.zeroDivisionError, by simp only [karplus_strong_pluck, if_pos hf0]⟩
  by_cases hdneg : delay_length f < 0
  · exact ⟨.valueErrorNegDim,
      by simp only [karplus_strong_pluck, if_neg hf0, if_pos hdneg]⟩
  have hdlt2 : delay_length f < 2 := by
    rcases h with h1 | h1
    · have hfneg : f < 0 := lt_of_le_of_ne h1 hf0
      have hq : (SAMPLE_RATE : ℚ) / f ≤ 0 :=
        div_nonpos_iff.mpr (Or.inl ⟨by positivity, hfneg.le⟩)
      have := pytrunc_nonpos hq
      rw [delay_length]
      omega
    · exact h1
  by_cases hns : pytrunc ((SAMPLE_RATE : ℚ) * d) < 0
  · exact ⟨.valueErrorNegDim,
      by simp only [karplus_strong_pluck, if_neg hf0, if_neg hdneg, if_pos hns]⟩
  have hshort : (delay_length f).toNat < 2 := by omega
  by_cases hn0 : (pytrunc ((SAMPLE_RATE : ℚ) * d)).toNat = 0
  · refine ⟨.valueErrorShape, ?_⟩
    rw [karplus_unfold noise f d decay brightness hf0 hdneg hns, hn0]
    simp only [ksLoop, bind, Except.bind]
    rw [show applyFadeIn ([] : List ℚ) = .error .valueErrorShape from by
      rw [applyFadeIn, if_pos (by simp [FADE_IN_SAMPLES_eq])]]
  · exact ⟨.indexError,
      karplus_indexError noise f d decay brightness hf0 hdneg hns hshort (by omega)⟩

/-- Witness for C3 at the concrete invalid frequency -5. -/
theorem c3_witness :
    ∃ e, karplus_strong_pluck (fun _ => 0) (-5) 1 (996 / 1000) (2 / 5) = .error e :=
  c3_invalid_inputs_raise (fun _ => 0) (-5) 1 (996 / 1000) (2 / 5)
    (Or.inl (by norm_num))

/-- C6, confirmed: every buffer returned by `karplus_strong_pluck` has peak
absolute value at most 0.8, and when the pre-normalization peak is 0 the
normalization is skipped and the (necessarily all-zero) buffer is returned
unchanged. -/
theorem c6_normalized_peak (noise : ℕ → ℚ) (f d decay brightness : ℚ)
    (out : List ℚ)
    (h : karplus_strong_pluck noise f d decay brightness = .ok out) :
    (∀ x ∈ out, |x| ≤ 8 / 10) ∧
    ∀ xs : List ℚ, peakAbs xs = 0 → normalizePluck xs = xs ∧ ∀ x ∈ xs, x = 0 := by
  refine ⟨?_, fun xs hxs =>
    ⟨normalizePluck_of_peak_zero hxs, peakAbs_zero_all_zero hxs⟩⟩
  obtain ⟨raw, faded1, faded2, _, _, _, hout⟩ := karplus_ok_inv h
  rw [hout]
  exact normalizePluck_bound faded2

/-- Witness for C6: a successful call at frequency 110, duration 0.1. -/
theorem c6_witness :
    ∃ out, karplus_strong_pluck (fun _ => 0) 110 (1 / 10) (996 / 1000) (2 / 5) =
        .ok out ∧ ∀ x ∈ out, |x| ≤ 8 / 10 := by
  obtain ⟨out, hok, _⟩ :=
    karplus_ok (fun _ => 0) 110 (1 / 10) (996 / 1000) (2 / 5)
      (by rw [delay_length_110]; omega)
      (le_refl _)
  exact ⟨out, hok,
    (c6_normalized_peak (fun _ => 0) 110 (1 / 10) (996 / 1000) (2 / 5) out hok).1⟩

/-- C9, corrected.  For short durations the call always raises and returns no
buffer, but the exception is not always the fade-window shape mismatch: at
frequency 30000 (delay length 1) and duration 0.05 the loop raises an
`IndexError` before either fade runs. -/
theorem c9_counterexample :
    karplus_strong_pluck (fun _ => 0) 30000 (1 / 20) (996 / 1000) (2 / 5) =
        .error .indexError ∧
    PyErr.indexError ≠ PyErr.valueErrorShape ∧
    (0 : ℚ) < 30000 ∧ (0 : ℚ) < 1 / 20 ∧ (1 / 20 : ℚ) < 1 / 10 := by
  refine ⟨?_, by decide, by norm_num, by norm_num, by norm_num⟩
  apply karplus_indexError
  · norm_num
  · rw [delay_length_30000]; decide
  · rw [pytrunc_sr_twentieth]; decide
  · rw [delay_length_30000]; decide
  · rw [pytrunc_sr_twentieth]; decide

/-- C9, amended: for every frequency > 0 and duration 0 < d < 0.1 at sample
rate 44100 the call raises an exception and returns no buffer; the exception
is the fade-window broadcast `ValueError` whenever the delay line has length
at least 2, and otherwise an `IndexError` from the loop may occur first. -/
theorem c9_short_duration_raises (noise : ℕ → ℚ) (f d decay brightness : ℚ)
    (hf : 0 < f) (hd0 : 0 < d) (hd : d < 1 / 10) :
    ∃ e, karplus_strong_pluck noise f d decay brightness = .error e ∧
      (2 ≤ delay_length f → e = .valueErrorShape) := by
  have hfne : f ≠ 0 := ne_of_gt hf
  have hq : 0 ≤ (SAMPLE_RATE : ℚ) / f := div_nonneg (by positivity) hf.le
  have hdneg : ¬ delay_length f < 0 :=
    not_lt.mpr (by rw [delay_length]; exact pytrunc_nonneg hq)
  have hprod : 0 ≤ (SAMPLE_RATE : ℚ) * d := by positivity
  have hns : ¬ pytrunc ((SAMPLE_RATE : ℚ) * d) < 0 :=
    not_lt.mpr (pytrunc_nonneg hprod)
  have hnlt : (pytrunc ((SAMPLE_RATE : ℚ) * d)).toNat < FADE_OUT_SAMPLES := by
    rw [FADE_OUT_SAMPLES_eq]
    have hsr : (SAMPLE_RATE : ℚ) = 44100 := by norm_num [SAMPLE_RATE]
    have h1 : (SAMPLE_RATE : ℚ) * d < 4410 := by rw [hsr]; linarith
    have h2 : pytrunc ((SAMPLE_RATE : ℚ) * d) < 4410 := by
      rw [pytrunc_of_nonneg hprod]
      exact Int.floor_lt.mpr (by exact_mod_cast h1)
    omega
  by_cases hdl2 : 2 ≤ (delay_length f).toNat
  · obtain ⟨ys, hys, hyslen⟩ :=
      ksLoop_ok_of_two decay brightness (initialDelayLine noise f)
        (pytrunc ((SAMPLE_RATE : ℚ) * d)).toNat
        (by rw [initialDelayLine_length]; exact hdl2)
    refine ⟨.valueErrorShape, ?_, fun _ => rfl⟩
    rw [karplus_unfold noise f d decay brightness hfne hdneg hns]
    by_cases hys441 : ys.length < FADE_IN_SAMPLES
    · have hfi : applyFadeIn ys = .error .valueErrorShape := by
        rw [applyFadeIn, if_pos hys441]
      simp only [bind, Except.bind, hys, hfi]
    · obtain ⟨r1, hr1, hr1len⟩ := applyFadeIn_ok (not_lt.mp hys441)
      have hfo : applyFadeOut r1 = .error .valueErrorShape := by
        rw [applyFadeOut, if_pos (by rw [hr1len, hyslen]; exact hnlt)]
      simp only [bind, Except.bind, hys, hr1, hfo]
  · have hshort : (delay_length f).toNat < 2 := by omega
    by_cases hn0 : (pytrunc ((SAMPLE_RATE : ℚ) * d)).toNat = 0
    · refine ⟨.valueErrorShape, ?_, fun _ => rfl⟩
      rw [karplus_unfold noise f d decay brightness hfne hdneg hns, hn0]
      simp only [ksLoop, bind, Except.bind]
      rw [show applyFadeIn ([] : List ℚ) = .error .valueErrorShape from by
        rw [applyFadeIn, if_pos (by simp [FADE_IN_SAMPLES_eq])]]
    · refine ⟨.indexError,
        karplus_indexError noise f d decay brightness hfne hdneg hns hshort
          (by omega), ?_⟩
      intro h2
      exfalso
      omega

/-- Witness for C9 at frequency 110, duration 0.05. -/
theorem c9_witness :
    ∃ e, karplus_strong_pluck (fun _ => 0) 110 (1 / 20) (996 / 1000) (2 / 5) =
        .error e ∧ (2 ≤ delay_length 110 → e = .valueErrorShape) :=
  c9_short_duration_raises (fun _ => 0) 110 (1 / 20) (996 / 1000) (2 / 5)
    (by norm_num) (by norm_num) (by norm_num)

lemma cycle_size_eq : cycle_size = 158759 := by decide

lemma foldl_length_inv {α : Type} (f : List PyF → α → List PyF)
    (hf : ∀ b a, (f b a).length = b.length) :
    ∀ (l : List α) (b : List PyF), (l.foldl f b).length = b.length := by
  intro l
  induction l with
  | nil => intro b; rfl
  | cons a t ih => intro b; rw [List.foldl_cons, ih, hf]

lemma addString_length (size : ℕ) (buf : List PyF) (offset : ℕ) (s : List PyF) :
    (addString size buf offset s).length = buf.length := by
  rw [addString]
  exact foldl_length_inv _ (fun b i => by rw [List.length_set]) _ buf

lemma mixCycleMono_length (strings : List (ℕ × List PyF)) :
    (mixCycleMono strings).length = cycle_size := by
  rw [mixCycleMono,
    foldl_length_inv _ (fun b p => addString_length cycle_size b _ p.2) strings _]
  exact List.length_replicate cycle_size (PyF.fin 0)

/-- C4, corrected.  The cycle length is independent of the input strings, but
its value is `int(44100 × float(0.6·6)) = 158759`: the IEEE double product
`0.6 * 6` is slightly below 3.6, so truncation loses one sample relative to
the claimed `round(44100 × 3.6) = 158760`. -/
theorem c4_counterexample :
    (mixCycleMono [(0, [PyF.fin 1])]).length ≠
      (round ((SAMPLE_RATE : ℚ) * (6 / 10) * 6)).toNat := by
  rw [mixCycleMono_length, cycle_size_eq,
    show ((SAMPLE_RATE : ℚ) * (6 / 10) * 6) = 158760 by norm_num [SAMPLE_RATE],
    round_eq,
    show ⌊(158760 : ℚ) + 1 / 2⌋ = 158760 from Int.floor_eq_iff.mpr (by norm_num)]
  decide

/-- C4, amended: for all input string buffers regardless of their lengths,
the mono cycle buffer has length exactly `cycle_size`, and `cycle_size` —
`int(SAMPLE_RATE * CYCLE_DURATION)` computed in double precision — is
158759, one less than the exact-arithmetic `round(44100 × 0.6 × 6) =
158760`. -/
theorem c4_cycle_length (strings : List (ℕ × List PyF)) :
    (mixCycleMono strings).length = cycle_size ∧ cycle_size = 158759 :=
  ⟨mixCycleMono_length strings, cycle_size_eq⟩

lemma pyf_div_zero_not_fin (x : PyF) (r : ℚ) : PyF.div x (PyF.fin 0) ≠ PyF.fin r := by
  cases x with
  | fin q =>
      simp only [PyF.div, if_pos rfl]
      rcases lt_trichotomy q 0 with h | h | h
      · rw [if_neg (ne_of_lt h), if_neg (not_lt.mpr h.le)]
        simp
      · rw [if_pos h]
        simp
      · rw [if_neg (ne_of_gt h), if_pos h]
        simp
  | pinf =>
      simp only [PyF.div]
      rw [if_neg (lt_irrefl 0)]
      simp
  | ninf =>
      simp only [PyF.div]
      rw [if_neg (lt_irrefl 0)]
      simp
  | nan => simp [PyF.div]

lemma pyf_zero_mul_not_fin {y : PyF} (h : ∀ r, y ≠ PyF.fin r) :
    PyF.mul (PyF.fin 0) y = PyF.nan := by
  cases y with
  | fin r => exact absurd rfl (h r)
  | pinf => simp [PyF.mul]
  | ninf => simp [PyF.mul]
  | nan => rfl

lemma gsp_empty_all_nan (sinO expO sqrtO : ℚ → ℚ)
    (frequency duration av attack vol : ℚ) :
    generate_string_pluck sinO expO sqrtO [] frequency duration av attack vol =
      List.replicate (pytruncNat ((SAMPLE_RATE : ℚ) * duration)) PyF.nan := by
  rw [generate_string_pluck]
  apply List.eq_replicate_iff.mpr
  refine ⟨by rw [List.length_map, List.length_range], ?_⟩
  intro b hb
  rw [List.mem_map] at hb
  obtain ⟨i, _, hbeq⟩ := hb
  rw [← hbeq]
  dsimp only
  rw [show ampSum [] = 0 from rfl,
    show rawSum sinO expO sqrtO [] frequency ((i : ℚ) / (SAMPLE_RATE : ℚ)) = 0 from rfl]
  rw [pyf_zero_mul_not_fin (pyf_div_zero_not_fin _)]
  rw [PyF.clip, if_pos rfl]
  rfl

/-- C5, corrected.  With an empty harmonic table the amplitude sum is 0 and
numpy's silent division by zero turns every sample into NaN: the buffer has
the requested length but is all-NaN, not all-zero silence (no error is
raised, matching that part of the claim). -/
theorem c5_empty_harmonics_nan (sinO expO sqrtO : ℚ → ℚ)
    (frequency duration av attack vol : ℚ) :
    generate_string_pluck sinO expO sqrtO [] frequency duration av attack vol =
      List.replicate (pytruncNat ((SAMPLE_RATE : ℚ) * duration)) PyF.nan :=
  gsp_empty_all_nan sinO expO sqrtO frequency duration av attack vol

/-- C5 counterexample: at duration of one sample, the empty-table output is
`[NaN]`, not the all-zero buffer the claim describes. -/
theorem c5_counterexample :
    generate_string_pluck (fun _ => 0) (fun _ => 1) (fun _ => 1) [] 110 (1 / 44100)
        1 (8 / 10) (1 / 2) ≠
      List.replicate (pytruncNat ((SAMPLE_RATE : ℚ) * (1 / 44100))) (PyF.fin 0) ∧
    pytruncNat ((SAMPLE_RATE : ℚ) * (1 / 44100)) = 1 := by
  have hn : pytruncNat ((SAMPLE_RATE : ℚ) * (1 / 44100)) = 1 := by
    rw [pytruncNat, pytrunc_of_nonneg (by norm_num [SAMPLE_RATE]),
      show ((SAMPLE_RATE : ℚ) * (1 / 44100)) = 1 by norm_num [SAMPLE_RATE],
      show ⌊(1 : ℚ)⌋ = 1 by norm_num]
    rfl
  refine ⟨?_, hn⟩
  rw [gsp_empty_all_nan, hn]
  simp [List.replicate]

/-- C7, confirmed: `generate_string_pluck` consumes no randomness — for one
fixed set of library functions (`sinO`, `expO`, `sqrtO` model `np.sin`,
`np.exp`, `np.sqrt`) and equal arguments it returns equal buffers. -/
theorem c7_deterministic (sinO expO sqrtO : ℚ → ℚ) (harmonics : List (ℚ × ℚ))
    (f1 f2 d1 d2 av1 av2 at1 at2 v1 v2 : ℚ)
    (hf : f1 = f2) (hd : d1 = d2) (hav : av1 = av2) (hat : at1 = at2)
    (hv : v1 = v2) :
    generate_string_pluck sinO expO sqrtO harmonics f1 d1 av1 at1 v1 =
      generate_string_pluck sinO expO sqrtO harmonics f2 d2 av2 at2 v2 := by
  rw [hf, hd, hav, hat, hv]

/-- Witness for C7 at concrete arguments. -/
theorem c7_witness :
    generate_string_pluck (fun _ => 0) (fun _ => 1) (fun _ => 1) HARMONICS 110 1 1
        (8 / 10) (1 / 2) =
      generate_string_pluck (fun _ => 0) (fun _ => 1) (fun _ => 1) HARMONICS 110 1 1
        (8 / 10) (1 / 2) :=
  c7_deterministic (fun _ => 0) (fun _ => 1) (fun _ => 1) HARMONICS 110 110 1 1 1 1
    (8 / 10) (8 / 10) (1 / 2) (1 / 2) rfl rfl rfl rfl rfl

/-- C8, confirmed: the stereo renderer returns one pair per mono sample (both
channels have the mono length), the left channel at index `i` is
`mono[i] × panLeft`, and the right channel is
`mono[(i + delay) mod N] × panRight`. -/
theorem c8_render_stereo (mono : List PyF) (delay : ℕ) (pl pr : ℚ) (i : ℕ)
    (hi : i < mono.length) :
    (renderStereo mono delay pl pr).length = mono.length ∧
    ((renderStereo mono delay pl pr).getD i (PyF.nan, PyF.nan)).1 =
      PyF.mul (mono.getD i (PyF.fin 0)) (PyF.fin pl) ∧
    ((renderStereo mono delay pl pr).getD i (PyF.nan, PyF.nan)).2 =
      PyF.mul (mono.getD ((i + delay) % mono.length) (PyF.fin 0)) (PyF.fin pr) := by
  have hlen : (renderStereo mono delay pl pr).length = mono.length := by
    rw [renderStereo, List.length_map, List.length_range]
  have hi2 : i < (renderStereo mono delay pl pr).length := by rw [hlen]; exact hi
  rw [List.getD_eq_getElem _ _ hi2]
  refine ⟨hlen, ?_, ?_⟩ <;> simp [renderStereo]

/-- Witness for C8 on a concrete two-sample mono buffer. -/
theorem c8_witness :
    (renderStereo [PyF.fin 1, PyF.fin 2] 1 (3 / 4) (3 / 4)).length =
      ([PyF.fin 1, PyF.fin 2] : List PyF).length ∧
    ((renderStereo [PyF.fin 1, PyF.fin 2] 1 (3 / 4) (3 / 4)).getD 0
        (PyF.nan, PyF.nan)).1 =
      PyF.mul (([PyF.fin 1, PyF.fin 2] : List PyF).getD 0 (PyF.fin 0))
        (PyF.fin (3 / 4)) ∧
    ((renderStereo [PyF.fin 1, PyF.fin 2] 1 (3 / 4) (3 / 4)).getD 0
        (PyF.nan, PyF.nan)).2 =
      PyF.mul (([PyF.fin 1, PyF.fin 2] : List PyF).getD
          ((0 + 1) % ([PyF.fin 1, PyF.fin 2] : List PyF).length) (PyF.fin 0))
        (PyF.fin (3 / 4)) :=
  c8_render_stereo [PyF.fin 1, PyF.fin 2] 1 (3 / 4) (3 / 4) 0 (by simp)

lemma getD_fin {xs : List PyF} (h : ∀ x ∈ xs, ∃ q, x = PyF.fin q) (i : ℕ) :
    ∃ q, xs.getD i (PyF.fin 0) = PyF.fin q := by
  by_cases hi : i < xs.length
  · rw [List.getD_eq_getElem _ _ hi]
    exact h _ (List.getElem_mem hi)
  · rw [List.getD_eq_default _ _ (not_lt.mp hi)]
    exact ⟨0, rfl⟩

lemma getD_fin_bound {bd : ℚ} {xs : List PyF}
    (h : ∀ x ∈ xs, ∃ q, x = PyF.fin q ∧ |q| ≤ bd) (hb0 : 0 ≤ bd) (i : ℕ) :
    ∃ q, xs.getD i (PyF.fin 0) = PyF.fin q ∧ |q| ≤ bd := by
  by_cases hi : i < xs.length
  · rw [List.getD_eq_getElem _ _ hi]
    exact h _ (List.getElem_mem hi)
  · rw [List.getD_eq_default _ _ (not_lt.mp hi)]
    exact ⟨0, rfl, by simpa using hb0⟩

lemma envelopeF_fin_of_pos {expO : ℚ → ℚ} (hexp : ∀ q, 0 < expO q)
    (attack tq : ℚ) :
    ∃ e, envelopeF expO attack tq = PyF.fin e := by
  rw [envelopeF]
  split
  · have hc : (1 : ℚ) + expO (-(12 : ℚ) * (tq / attack - 1 / 2)) ≠ 0 := by
      have := hexp (-(12 : ℚ) * (tq / attack - 1 / 2))
      positivity
    refine ⟨1 / (1 + expO (-(12 : ℚ) * (tq / attack - 1 / 2))), ?_⟩
    simp only [PyF.div]
    rw [if_neg hc]
  · exact ⟨_, rfl⟩

lemma clip_fin_bound (s : ℚ) :
    ∃ c, PyF.clip (PyF.fin s) (PyF.fin (-1)) (PyF.fin 1) = PyF.fin c ∧ |c| ≤ 1 := by
  rw [PyF.clip, if_neg (by simp : ¬ (PyF.fin s = PyF.nan))]
  simp only [PyF.ltb]
  by_cases h1 : s < -1
  · rw [if_pos (by simpa using h1)]
    exact ⟨-1, rfl, by norm_num⟩
  · rw [if_neg (by simpa using h1)]
    by_cases h2 : 1 < s
    · rw [if_pos (by simpa using h2)]
      exact ⟨1, rfl, by norm_num⟩
    · rw [if_neg (by simpa using h2)]
      push_neg at h1 h2
      exact ⟨s, rfl, abs_le.mpr ⟨h1, h2⟩⟩

lemma gsp_fin_bound {sinO expO sqrtO : ℚ → ℚ} (hexp : ∀ q, 0 < expO q)
    {harmonics : List (ℚ × ℚ)} (hsum : ampSum harmonics ≠ 0)
    (frequency duration av attack vol : ℚ) :
    ∀ x ∈ generate_string_pluck sinO expO sqrtO harmonics frequency duration av
        attack vol,
      ∃ q, x = PyF.fin q ∧ |q| ≤ 8 / 10 := by
  intro x hx
  rw [generate_string_pluck, List.mem_map] at hx
  obtain ⟨i, _, hxeq⟩ := hx
  rw [← hxeq]
  dsimp only
  obtain ⟨e, he⟩ :=
    envelopeF_fin_of_pos hexp attack ((i : ℚ) / (SAMPLE_RATE : ℚ))
  rw [he]
  simp only [PyF.mul]
  rw [show PyF.div (PyF.fin (e * av * vol)) (PyF.fin (ampSum harmonics)) =
      PyF.fin (e * av * vol / ampSum harmonics) from by
    simp only [PyF.div]; rw [if_neg hsum]]
  simp only [PyF.mul]
  obtain ⟨c, hc, hcb⟩ := clip_fin_bound
    (rawSum sinO expO sqrtO harmonics frequency ((i : ℚ) / (SAMPLE_RATE : ℚ)) *
      (e * av * vol / ampSum harmonics))
  rw [hc]
  simp only [PyF.mul]
  refine ⟨c * (8 / 10), rfl, ?_⟩
  rw [abs_mul, show |(8 : ℚ) / 10| = 8 / 10 by norm_num]
  calc |c| * (8 / 10) ≤ 1 * (8 / 10) :=
        mul_le_mul_of_nonneg_right hcb (by norm_num)
    _ = 8 / 10 := by norm_num

lemma setAccum_all_fin {size offset : ℕ} {buf s : List PyF}
    (hb : ∀ x ∈ buf, ∃ q, x = PyF.fin q) (hs : ∀ x ∈ s, ∃ q, x = PyF.fin q) :
    ∀ x ∈ addString size buf offset s, ∃ q, x = PyF.fin q := by
  rw [addString]
  have haux : ∀ (l : List ℕ) (b : List PyF), (∀ x ∈ b, ∃ q, x = PyF.fin q) →
      ∀ x ∈ l.foldl (fun b2 i => b2.set ((offset + i) % size)
        (PyF.add (b2.getD ((offset + i) % size) (PyF.fin 0))
          (s.getD i (PyF.fin 0)))) b,
        ∃ q, x = PyF.fin q := by
    intro l
    induction l with
    | nil => intro b hbf x hx; exact hbf x hx
    | cons a t ih =>
        intro b hbf x hx
        rw [List.foldl_cons] at hx
        refine ih _ ?_ x hx
        intro y hy
        rcases List.mem_or_eq_of_mem_set hy with hy1 | hy1
        · exact hbf y hy1
        · obtain ⟨q1, hq1⟩ := getD_fin hbf ((offset + a) % size)
          obtain ⟨q2, hq2⟩ := getD_fin hs a
          exact ⟨q1 + q2, by rw [hy1, hq1, hq2]; rfl⟩
  exact haux _ buf hb

lemma mixCycleMono_all_fin {strings : List (ℕ × List PyF)}
    (hs : ∀ p ∈ strings, ∀ x ∈ p.2, ∃ q, x = PyF.fin q) :
    ∀ x ∈ mixCycleMono strings, ∃ q, x = PyF.fin q := by
  rw [mixCycleMono]
  have haux : ∀ (l : List (ℕ × List PyF)) (b : List PyF),
      (∀ p ∈ l, ∀ x ∈ p.2, ∃ q, x = PyF.fin q) →
      (∀ x ∈ b, ∃ q, x = PyF.fin q) →
      ∀ x ∈ l.foldl
        (fun b2 p => addString cycle_size b2 (p.1 * beat_interval_samples) p.2) b,
        ∃ q, x = PyF.fin q := by
    intro l
    induction l with
    | nil => intro b _ hbf; exact hbf
    | cons a t ih =>
        intro b hl hbf
        rw [List.foldl_cons]
        exact ih _ (fun p hp => hl p (List.mem_cons_of_mem a hp))
          (setAccum_all_fin hbf (hl a (List.mem_cons_self a t)))
  apply haux strings _ hs
  intro x hx
  rw [List.eq_of_mem_replicate hx]
  exact ⟨0, rfl⟩

lemma peakAbsF_cons (y : PyF) (t : List PyF) :
    peakAbsF (y :: t) = PyF.maxNan (PyF.absF y) (peakAbsF t) := rfl

lemma peakAbsF_fin {xs : List PyF} (h : ∀ x ∈ xs, ∃ q, x = PyF.fin q) :
    ∃ M, peakAbsF xs = PyF.fin M ∧ 0 ≤ M ∧
      ∀ x ∈ xs, ∀ q, x = PyF.fin q → |q| ≤ M := by
  induction xs with
  | nil => exact ⟨0, rfl, le_refl 0, by intro x hx; cases hx⟩
  | cons y t ih =>
      obtain ⟨qy, hqy⟩ := h y (List.mem_cons_self y t)
      obtain ⟨M, hM, hM0, hMb⟩ := ih (fun x hx => h x (List.mem_cons_of_mem y hx))
      rw [peakAbsF_cons, hqy, hM,
        show PyF.absF (PyF.fin qy) = PyF.fin |qy| from rfl,
        PyF.maxNan, if_neg (by simp)]
      simp only [PyF.ltb]
      by_cases hlt : |qy| < M
      · rw [if_pos (by simpa using hlt)]
        refine ⟨M, rfl, hM0, ?_⟩
        intro x hx q hq
        rcases List.mem_cons.mp hx with h1 | h1
        · rw [h1] at hq
          injection hq with hq2
          rw [← hq2]
          exact hlt.le
        · exact hMb x h1 q hq
      · rw [if_neg (by simpa using hlt)]
        refine ⟨|qy|, rfl, abs_nonneg qy, ?_⟩
        intro x hx q hq
        rcases List.mem_cons.mp hx with h1 | h1
        · rw [h1] at hq
          injection hq with hq2
          rw [← hq2]
        · exact le_trans (hMb x h1 q hq) (not_lt.mp hlt)

lemma normalizeCycle_bound {xs : List PyF} (h : ∀ x ∈ xs, ∃ q, x = PyF.fin q) :
    ∀ x ∈ normalizeCycle xs, ∃ q, x = PyF.fin q ∧ |q| ≤ 85 / 100 := by
  obtain ⟨M, hM, hM0, hMb⟩ := peakAbsF_fin h
  rw [normalizeCycle, hM]
  simp only [PyF.ltb]
  by_cases hlt : (85 : ℚ) / 100 < M
  · rw [if_pos (by simpa using hlt)]
    intro x hx
    rw [List.mem_map] at hx
    obtain ⟨y, hy, hxeq⟩ := hx
    rw [← hxeq]
    obtain ⟨qy, hqy⟩ := h y hy
    rw [hqy]
    have hMpos : 0 < M := lt_trans (by norm_num) hlt
    rw [show PyF.div (PyF.fin (85 / 100)) (PyF.fin M) = PyF.fin (85 / 100 / M) from by
      simp only [PyF.div]; rw [if_neg (ne_of_gt hMpos)]]
    simp only [PyF.mul]
    refine ⟨qy * (85 / 100 / M), rfl, ?_⟩
    have hqyM : |qy| ≤ M := hMb y hy qy hqy
    rw [abs_mul, show |(85 : ℚ) / 100 / M| = 85 / 100 / M from abs_of_pos (by positivity)]
    calc |qy| * (85 / 100 / M) ≤ M * (85 / 100 / M) :=
          mul_le_mul_of_nonneg_right hqyM (by positivity)
      _ = 85 / 100 := by field_simp; ring
  · rw [if_neg (by simpa using hlt)]
    intro x hx
    obtain ⟨q, hq⟩ := h x hx
    exact ⟨q, hq, le_trans (hMb x hx q hq) (by linarith [not_lt.mp hlt])⟩

lemma pipeline_bound {strings : List (ℕ × List PyF)}
    (hs : ∀ p ∈ strings, ∀ x ∈ p.2, ∃ q, x = PyF.fin q) (delay : ℕ) :
    ∀ p ∈ renderStereo (normalizeCycle (mixCycleMono strings)) delay (75 / 100)
        (75 / 100),
      (∃ a, p.1 = PyF.fin a ∧ |a| ≤ 51 / 80) ∧
      (∃ b, p.2 = PyF.fin b ∧ |b| ≤ 51 / 80) := by
  have hnorm := normalizeCycle_bound (mixCycleMono_all_fin hs)
  intro p hp
  rw [renderStereo, List.mem_map] at hp
  obtain ⟨i, _, hpeq⟩ := hp
  rw [← hpeq]
  constructor
  · dsimp only
    obtain ⟨q, hq, hqb⟩ := getD_fin_bound hnorm (by norm_num) i
    rw [hq]
    simp only [PyF.mul]
    refine ⟨q * (75 / 100), rfl, ?_⟩
    rw [abs_mul, show |(75 : ℚ) / 100| = 75 / 100 by norm_num]
    calc |q| * (75 / 100) ≤ 85 / 100 * (75 / 100) :=
          mul_le_mul_of_nonneg_right hqb (by norm_num)
      _ = 51 / 80 := by norm_num
  · dsimp only
    obtain ⟨q, hq, hqb⟩ := getD_fin_bound hnorm (by norm_num)
      ((i + delay) % (normalizeCycle (mixCycleMono strings)).length)
    rw [hq]
    simp only [PyF.mul]
    refine ⟨q * (75 / 100), rfl, ?_⟩
    rw [abs_mul, show |(75 : ℚ) / 100| = 75 / 100 by norm_num]
    calc |q| * (75 / 100) ≤ 85 / 100 * (75 / 100) :=
          mul_le_mul_of_nonneg_right hqb (by norm_num)
      _ = 51 / 80 := by norm_num

/-- C10, confirmed: every sample of the stereo buffer produced by
`generate_tanpura_cycle` is finite with absolute value at most
0.6375 = 0.75 × 0.85 — the conditional normalization bounds the mono peak by
0.85 and each channel multiplies by the 0.75 panning gain.  The hypothesis
that the `np.exp` oracle is positive-valued (true of the real exponential)
keeps the sigmoid envelope finite. -/
theorem c10_stereo_bound (sinO expO sqrtO : ℚ → ℚ) (hexp : ∀ q, 0 < expO q)
    (sa_frequency : ℚ) (string1_note : String) :
    ∀ p ∈ generate_tanpura_cycle sinO expO sqrtO sa_frequency string1_note,
      (∃ a, p.1 = PyF.fin a ∧ |a| ≤ 51 / 80) ∧
      (∃ b, p.2 = PyF.fin b ∧ |b| ≤ 51 / 80) := by
  have hsum : ampSum HARMONICS ≠ 0 := by norm_num [ampSum, HARMONICS]
  rw [generate_tanpura_cycle]
  apply pipeline_bound
  intro pr hpr x hx
  simp only [List.mem_cons, List.not_mem_nil, or_false] at hpr
  rcases hpr with h1 | h1 | h1 | h1 <;> subst h1 <;>
    exact Exists.imp (fun q hq => hq.1)
      (gsp_fin_bound hexp hsum _ _ _ _ _ x hx)

lemma normalizeCycle_length (xs : List PyF) :
    (normalizeCycle xs).length = xs.length := by
  rw [normalizeCycle]
  split <;> simp

lemma renderStereo_length (mono : List PyF) (delay : ℕ) (pl pr : ℚ) :
    (renderStereo mono delay pl pr).length = mono.length := by
  rw [renderStereo, List.length_map, List.length_range]

lemma generate_tanpura_cycle_length (sinO expO sqrtO : ℚ → ℚ) (sa_frequency : ℚ)
    (string1_note : String) :
    (generate_tanpura_cycle sinO expO sqrtO sa_frequency string1_note).length =
      cycle_size := by
  rw [generate_tanpura_cycle, renderStereo_length, normalizeCycle_length,
    mixCycleMono_length]

/-- Witness for C10: the bound at the first sample of a concrete cycle. -/
theorem c10_witness :
    (∃ a, ((generate_tanpura_cycle (fun _ => 0) (fun _ => 1) (fun _ => 1) 110
        "P").getD 0 (PyF.nan, PyF.nan)).1 = PyF.fin a ∧ |a| ≤ 51 / 80) ∧
    (∃ b, ((generate_tanpura_cycle (fun _ => 0) (fun _ => 1) (fun _ => 1) 110
        "P").getD 0 (PyF.nan, PyF.nan)).2 = PyF.fin b ∧ |b| ≤ 51 / 80) := by
  have hlen : 0 < (generate_tanpura_cycle (fun _ => 0) (fun _ => 1) (fun _ => 1)
      110 "P").length := by
    rw [generate_tanpura_cycle_length, cycle_size_eq]
    norm_num
  have hmem : (generate_tanpura_cycle (fun _ => 0) (fun _ => 1) (fun _ => 1) 110
      "P").getD 0 (PyF.nan, PyF.nan) ∈
      generate_tanpura_cycle (fun _ => 0) (fun _ => 1) (fun _ => 1) 110 "P" := by
    rw [List.getD_eq_getElem _ _ hlen]
    exact List.getElem_mem hlen
  exact c10_stereo_bound (fun _ => 0) (fun _ => 1) (fun _ => 1)
    (fun q => by norm_num) 110 "P" _ hmem
